import Mathlib

/-!
Verification of the DOMjudge test-case generator (shallow embedding).

The repository consists of an orchestrator (test_case_generator.py) and three
pluggable case-generation strategies (sorting_generator.py,
binary_search_generator.py, graph_generator.py).  Each Python function that the
claims refer to is translated here into a pure Lean definition.  Randomness
(random.randint, random.sample, random.choice) is modelled by oracle
parameters; subprocess execution is modelled by an abstract outcome value.
-/

namespace test_case_generator

/-- Outcome of one invocation of the reference program, as seen by
generate_output_from_solution.  Either the orchestrator holds a compiled
executable and the process runs to some completion (with a wall-clock
duration, an exit code and a captured stdout), or self.executable is None
because no C++ source was compiled. -/
inductive RunOutcome where
  | completed (duration : Nat) (exitCode : Nat) (stdout : String)
  | noExecutable
deriving DecidableEq

/-- The wall-clock budget passed to subprocess.run (timeout=10) in
generate_output_from_solution. -/
def timeoutSeconds : Nat := 10

/-- The exceptions that the try block in generate_output_from_solution can
surface: subprocess.TimeoutExpired, subprocess.CalledProcessError (from
check=True on a non-zero exit), and the TypeError raised by subprocess.run
when self.executable is None. -/
inductive PyError where
  | timeoutExpired
  | calledProcessError (code : Nat)
  | typeError
deriving DecidableEq

/-- Model of the subprocess.run call inside generate_output_from_solution
(test_case_generator.py lines 173-180): raises TimeoutExpired when the
process exceeds the 10 second budget, CalledProcessError on a non-zero exit
(check=True), TypeError when there is no executable, and otherwise returns
the captured stdout. -/
def subprocessRun : RunOutcome → Except PyError String
  | .noExecutable => .error .typeError
  | .completed d code out =>
    if timeoutSeconds < d then .error .timeoutExpired
    else if code ≠ 0 then .error (.calledProcessError code)
    else .ok out

/-- Observable result of generate_output_from_solution: the content left in
the output file (the with-open statement always creates/truncates it, so it
is some content whenever the call was reached), the diagnostic lines
printed, and whether an exception escaped the function. -/
structure RefRunResult where
  ansFile : Option String
  warnings : List String
  raised : Bool
deriving DecidableEq

/-- Model of DOMjudgeTestGenerator.generate_output_from_solution
(test_case_generator.py lines 170-188).  The try block writes the captured
stdout to the output file; the two except clauses catch TimeoutExpired and
CalledProcessError, truncate the output file to empty, print a diagnostic
and return; a TypeError (no executable) is not caught and escapes after the
output file was already created empty. -/
def generate_output_from_solution (o : RunOutcome) : RefRunResult :=
  match subprocessRun o with
  | .ok out => ⟨some out, [], false⟩
  | .error .timeoutExpired => ⟨some "", ["Warning: Solution timed out."], false⟩
  | .error (.calledProcessError _) => ⟨some "", ["Error running solution."], false⟩
  | .error .typeError => ⟨some "", [], true⟩

end test_case_generator

namespace sorting_generator

/-- Model of the condition at sorting_generator.py line 88:
not os.path.exists(output_file) or os.path.getsize(output_file) == 0.
The file state is none when the file is missing and some content otherwise. -/
def fallbackNeeded : Option String → Bool
  | none => true
  | some s => s.length == 0

/-- Model of sorting_generator.py lines 88-89: the fallback output is written
exactly when the file after the reference-runner step is missing or has size
zero; otherwise the file is left as it is. -/
def applyFallback (fallbackOut : String) (refFile : Option String) : Option String :=
  if fallbackNeeded refFile then some fallbackOut else refFile

/-- Serialization used by the generators: space-separated integers. -/
def joinInts (arr : List Int) : String :=
  String.intercalate " " (arr.map toString)

/-- Model of Generator.generate_output_with_python (sorting_generator.py
lines 93-107) at the level of the parsed array: the array read from the
input file is sorted with arr.sort(). -/
def generate_output_with_python (arr : List Int) : List Int :=
  List.insertionSort (· ≤ ·) arr

/-- The text written to the output file by generate_output_with_python:
the sorted values space-separated, followed by a newline. -/
def outputText (arr : List Int) : String :=
  joinInts (generate_output_with_python arr) ++ "\n"

end sorting_generator

namespace binary_search_generator

/-- Model of the condition at binary_search_generator.py line 87 (same code
as in the sorting strategy). -/
def fallbackNeeded : Option String → Bool
  | none => true
  | some s => s.length == 0

/-- Model of binary_search_generator.py lines 87-88. -/
def applyFallback (fallbackOut : String) (refFile : Option String) : Option String :=
  if fallbackNeeded refFile then some fallbackOut else refFile

/-- Model of the scan at binary_search_generator.py lines 110-112:
pos starts at 0 and advances while pos < n and arr[pos] <= query, i.e. it
stops at the first element exceeding the query. -/
def countUpperBound : List Int → Int → Nat
  | [], _ => 0
  | a :: rest, q => if a ≤ q then countUpperBound rest q + 1 else 0

/-- Model of Generator.generate_output_with_python (binary_search_generator.py
lines 92-113) at the level of the parsed array and queries: the array is
sorted, then each query is answered by the bounded scan. -/
def generate_output_with_python (arr queries : List Int) : List Nat :=
  queries.map (fun q => countUpperBound (List.insertionSort (· ≤ ·) arr) q)

/-- The text written to the output file: one count per line. -/
def outputText (arr queries : List Int) : String :=
  String.join ((generate_output_with_python arr queries).map (fun c => toString c ++ "\n"))

end binary_search_generator

lemma countUpperBound_eq_countP (q : Int) :
    ∀ l : List Int, List.Sorted (· ≤ ·) l →
      binary_search_generator.countUpperBound l q = l.countP (fun a => a ≤ q)
  | [], _ => rfl
  | a :: rest, h => by
    rcases List.sorted_cons.mp h with ⟨ha, hrest⟩
    by_cases hq : a ≤ q
    · simp [binary_search_generator.countUpperBound, hq, List.countP_cons,
        countUpperBound_eq_countP q rest hrest]
    · have hzero : rest.countP (fun a => a ≤ q) = 0 := by
        refine List.countP_eq_zero.mpr fun b hb => ?_
        simp only [decide_eq_true_eq]
        intro hbq
        exact hq (le_trans (ha b hb) hbq)
      simp [binary_search_generator.countUpperBound, hq, List.countP_cons, hzero]

/-- C1: for every input array and every query, the binary-search fallback
evaluator answers with the count of array elements less than or equal to the
query (upper-bound convention); in particular for the array [5, 1, 3, 3, 9]
it answers query 3 with 3, query 0 with 0 and query 9 with 5, one count per
line. -/
theorem bs_fallback_counts_le :
    (∀ arr queries : List Int,
      binary_search_generator.generate_output_with_python arr queries =
        queries.map (fun q => arr.countP (fun a => a ≤ q))) ∧
    binary_search_generator.generate_output_with_python [5, 1, 3, 3, 9] [3, 0, 9] = [3, 0, 5] ∧
    binary_search_generator.outputText [5, 1, 3, 3, 9] [3, 0, 9] = "3\n0\n5\n" := by
  refine ⟨fun arr queries => ?_, by decide, by decide⟩
  have hfun : (fun q => binary_search_generator.countUpperBound
      (List.insertionSort (· ≤ ·) arr) q) = fun q => arr.countP (fun a => a ≤ q) := by
    funext q
    rw [countUpperBound_eq_countP q _ (List.sorted_insertionSort _ arr)]
    exact (List.perm_insertionSort (· ≤ ·) arr).countP_eq _
  simp only [binary_search_generator.generate_output_with_python, hfun]

/-- C5: the sorting fallback evaluator returns a permutation of its input in
non-decreasing order; it is idempotent, and applying it to an already sorted
array yields the same array. -/
theorem sorting_fallback_perm_sorted (arr : List Int) :
    (sorting_generator.generate_output_with_python arr).Perm arr ∧
    List.Sorted (· ≤ ·) (sorting_generator.generate_output_with_python arr) ∧
    sorting_generator.generate_output_with_python
        (sorting_generator.generate_output_with_python arr) =
      sorting_generator.generate_output_with_python arr ∧
    (List.Sorted (· ≤ ·) arr → sorting_generator.generate_output_with_python arr = arr) :=
  ⟨List.perm_insertionSort _ _, List.sorted_insertionSort _ _,
    (List.sorted_insertionSort _ _).insertionSort_eq, fun h => h.insertionSort_eq⟩

theorem sorting_fallback_perm_sorted_witness :
    List.Sorted (· ≤ ·) ([1, 1, 2] : List Int) ∧
    sorting_generator.generate_output_with_python [1, 1, 2] = [1, 1, 2] :=
  ⟨by decide, (sorting_fallback_perm_sorted [1, 1, 2]).2.2.2 (by decide)⟩

/-- C2: when the reference program runs past the 10 second budget or exits
with a non-zero status, generate_output_from_solution leaves the output file
created and empty, prints a diagnostic and returns without raising; on
success the output file holds exactly the captured stdout. -/
theorem ref_runner_degraded (d code : Nat) (out : String) :
    test_case_generator.generate_output_from_solution (.completed d code out) =
      (if test_case_generator.timeoutSeconds < d then
        ⟨some "", ["Warning: Solution timed out."], false⟩
      else if code ≠ 0 then
        ⟨some "", ["Error running solution."], false⟩
      else ⟨some out, [], false⟩) ∧
    (test_case_generator.generate_output_from_solution (.completed d code out)).raised = false := by
  constructor
  · simp only [test_case_generator.generate_output_from_solution,
      test_case_generator.subprocessRun]
    by_cases h1 : test_case_generator.timeoutSeconds < d
    · simp [h1]
    · by_cases h2 : code ≠ 0 <;> simp [h1, h2]
  · simp only [test_case_generator.generate_output_from_solution,
      test_case_generator.subprocessRun]
    by_cases h1 : test_case_generator.timeoutSeconds < d
    · simp [h1]
    · by_cases h2 : code ≠ 0 <;> simp [h1, h2]

lemma string_beq_zero_iff (s : String) : (s.length == 0) = true ↔ s = "" := by
  rw [beq_iff_eq]
  constructor
  · intro h
    cases s with
    | mk data =>
      cases data with
      | nil => rfl
      | cons c cs => simp [String.length] at h
  · intro h; subst h; rfl

lemma sorting_fallbackNeeded_iff (f : Option String) :
    sorting_generator.fallbackNeeded f = true ↔ f = none ∨ f = some "" := by
  cases f with
  | none => simp [sorting_generator.fallbackNeeded]
  | some s =>
    simp only [sorting_generator.fallbackNeeded, string_beq_zero_iff, Option.some.injEq,
      reduceCtorEq, false_or]

lemma bs_fallbackNeeded_iff (f : Option String) :
    binary_search_generator.fallbackNeeded f = true ↔ f = none ∨ f = some "" := by
  cases f with
  | none => simp [binary_search_generator.fallbackNeeded]
  | some s =>
    simp only [binary_search_generator.fallbackNeeded, string_beq_zero_iff, Option.some.injEq,
      reduceCtorEq, false_or]

/-- C4: in the sorting and binary-search strategies, the fallback evaluator
is invoked exactly when the output file left by the reference-runner step is
missing or has zero length, and a non-empty output file is left unchanged by
the fallback stage. -/
theorem fallback_iff_missing_or_empty (fbS fbB : String) (f g : Option String) :
    (sorting_generator.fallbackNeeded f = true ↔ f = none ∨ f = some "") ∧
    (∀ s, f = some s → s ≠ "" → sorting_generator.applyFallback fbS f = f) ∧
    (f = none ∨ f = some "" → sorting_generator.applyFallback fbS f = some fbS) ∧
    (binary_search_generator.fallbackNeeded g = true ↔ g = none ∨ g = some "") ∧
    (∀ s, g = some s → s ≠ "" → binary_search_generator.applyFallback fbB g = g) ∧
    (g = none ∨ g = some "" → binary_search_generator.applyFallback fbB g = some fbB) := by
  refine ⟨sorting_fallbackNeeded_iff f, ?_, ?_, bs_fallbackNeeded_iff g, ?_, ?_⟩
  · intro s hf hs
    subst hf
    have : ¬ sorting_generator.fallbackNeeded (some s) = true := by
      rw [sorting_fallbackNeeded_iff]
      simp [hs]
    simp [sorting_generator.applyFallback, this]
  · intro hf
    have : sorting_generator.fallbackNeeded f = true := (sorting_fallbackNeeded_iff f).mpr hf
    simp [sorting_generator.applyFallback, this]
  · intro s hg hs
    subst hg
    have : ¬ binary_search_generator.fallbackNeeded (some s) = true := by
      rw [bs_fallbackNeeded_iff]
      simp [hs]
    simp [binary_search_generator.applyFallback, this]
  · intro hg
    have : binary_search_generator.fallbackNeeded g = true := (bs_fallbackNeeded_iff g).mpr hg
    simp [binary_search_generator.applyFallback, this]

theorem fallback_iff_missing_or_empty_witness :
    ("x" : String) ≠ "" ∧
    sorting_generator.applyFallback "a" (some "x") = some "x" ∧
    binary_search_generator.applyFallback "b" none = some "b" :=
  ⟨by decide,
    (fallback_iff_missing_or_empty "a" "b" (some "x") none).2.1 "x" rfl (by decide),
    (fallback_iff_missing_or_empty "a" "b" (some "x") none).2.2.2.2.2 (Or.inl rfl)⟩

namespace sorting_generator

/-- Helper for the list lookups in the swap at sorting_generator.py line 78. -/
lemma getD_mem_of_lt {α : Type} {l : List α} {i : Nat} (h : i < l.length) (d : α) :
    l.getD i d ∈ l := by
  rw [List.getD_eq_getElem?_getD, List.getElem?_eq_getElem h, Option.getD_some]
  exact List.getElem_mem h

/-- Model of the simultaneous swap arr[i], arr[j] = arr[j], arr[i] at
sorting_generator.py line 78.  The indices produced by random.sample(range(n), 2)
are always in range; out-of-range indices leave the list unchanged. -/
def swapAt (l : List Int) (i j : Nat) : List Int :=
  if i < l.length ∧ j < l.length then
    (l.set i (l.getD j 0)).set j (l.getD i 0)
  else l

lemma swapAt_length (l : List Int) (i j : Nat) : (swapAt l i j).length = l.length := by
  unfold swapAt
  split <;> simp

lemma mem_of_mem_swapAt {l : List Int} {i j : Nat} {x : Int} (hx : x ∈ swapAt l i j) :
    x ∈ l := by
  unfold swapAt at hx
  split at hx
  · next h =>
    rcases List.mem_or_eq_of_mem_set hx with hx' | rfl
    · rcases List.mem_or_eq_of_mem_set hx' with hx'' | rfl
      · exact hx''
      · exact getD_mem_of_lt h.2 0
    · exact getD_mem_of_lt h.1 0
  · exact hx

/-- Model of the Pattern Synthesizer of the sorting strategy
(sorting_generator.py lines 62-80).  random.randint is modelled by the
oracle rand (one slot per element position); the index pairs drawn by
random.sample(range(n), 2) in the almost_sorted branch are modelled by the
oracle swaps. -/
def generateArray (rand : Nat → Int → Int → Int) (swaps : Nat → Nat × Nat)
    (n : Nat) (min_val max_val : Int) (pat : String) : List Int :=
  if pat == "random" then
    (List.range n).map (fun k => rand k min_val max_val)
  else if pat == "ascending" then
    List.insertionSort (· ≤ ·) ((List.range n).map (fun k => rand k min_val max_val))
  else if pat == "descending" then
    (List.insertionSort (· ≤ ·) ((List.range n).map (fun k => rand k min_val max_val))).reverse
  else if pat == "all_same" then
    List.replicate n (rand 0 min_val max_val)
  else if pat == "alternating" then
    (List.range n).map (fun i => if i % 2 == 0 then rand i min_val 0 else rand i 1 max_val)
  else if pat == "almost_sorted" then
    (List.range (min 5 (n / 10))).foldl (fun l k => swapAt l (swaps k).1 (swaps k).2)
      (List.insertionSort (· ≤ ·) ((List.range n).map (fun k => rand k min_val max_val)))
  else
    (List.range n).map (fun k => rand k min_val max_val)

lemma foldl_swapAt_length_mem (swaps : Nat → Nat × Nat) :
    ∀ (ks : List Nat) (l : List Int),
      ((ks.foldl (fun l k => swapAt l (swaps k).1 (swaps k).2) l).length = l.length) ∧
      (∀ x ∈ ks.foldl (fun l k => swapAt l (swaps k).1 (swaps k).2) l, x ∈ l)
  | [], l => ⟨rfl, fun _ hx => hx⟩
  | k :: ks, l => by
    have ih := foldl_swapAt_length_mem swaps ks (swapAt l (swaps k).1 (swaps k).2)
    refine ⟨?_, ?_⟩
    · simpa [List.foldl_cons, swapAt_length] using ih.1
    · intro x hx
      exact mem_of_mem_swapAt (ih.2 x (by simpa [List.foldl_cons] using hx))

end sorting_generator

/-- C3: for every element count, every well-formed value range and every
shape tag, the Pattern Synthesizer of the sorting strategy produces exactly
n integers, each within the inclusive range; the alternating tag draws even
positions from the interval between min_val and 0 and odd positions from
the interval between 1 and max_val, so it carries the strategy-specific
requirement min_val ≤ 0 < max_val. -/
theorem pattern_synthesizer_inrange (rand : Nat → Int → Int → Int) (swaps : Nat → Nat × Nat)
    (n : Nat) (min_val max_val : Int) (pat : String)
    (Hrand : ∀ k a b, a ≤ b → a ≤ rand k a b ∧ rand k a b ≤ b)
    (hrange : min_val ≤ max_val)
    (halt : pat = "alternating" → min_val ≤ 0 ∧ 1 ≤ max_val) :
    (sorting_generator.generateArray rand swaps n min_val max_val pat).length = n ∧
    ∀ x ∈ sorting_generator.generateArray rand swaps n min_val max_val pat,
      min_val ≤ x ∧ x ≤ max_val := by
  have hdrawmem : ∀ x ∈ (List.range n).map (fun k => rand k min_val max_val),
      min_val ≤ x ∧ x ≤ max_val := by
    intro x hx
    rcases List.mem_map.mp hx with ⟨k, _, rfl⟩
    exact Hrand k min_val max_val hrange
  have hsortmem : ∀ x ∈ List.insertionSort (· ≤ ·)
      ((List.range n).map (fun k => rand k min_val max_val)), min_val ≤ x ∧ x ≤ max_val := by
    intro x hx
    exact hdrawmem x ((List.mem_insertionSort _).mp hx)
  have hsortlen : (List.insertionSort (· ≤ ·)
      ((List.range n).map (fun k => rand k min_val max_val))).length = n := by
    rw [(List.perm_insertionSort _ _).length_eq, List.length_map, List.length_range]
  unfold sorting_generator.generateArray
  split_ifs with h1 h2 h3 h4 h5 h6
  · exact ⟨by simp, hdrawmem⟩
  · exact ⟨hsortlen, hsortmem⟩
  · exact ⟨by rw [List.length_reverse]; exact hsortlen,
      fun x hx => hsortmem x (List.mem_reverse.mp hx)⟩
  · refine ⟨by simp, fun x hx => ?_⟩
    rcases List.mem_replicate.mp hx with ⟨-, rfl⟩
    exact Hrand 0 min_val max_val hrange
  · rcases halt (by simpa using h5) with ⟨hm0, h1m⟩
    refine ⟨by simp, fun x hx => ?_⟩
    rcases List.mem_map.mp hx with ⟨i, -, rfl⟩
    by_cases hi : i % 2 == 0
    · simp only [hi, if_true]
      rcases Hrand i min_val 0 hm0 with ⟨hl, hr⟩
      exact ⟨hl, le_trans hr (le_trans zero_le_one h1m)⟩
    · simp only [hi, if_false]
      rcases Hrand i 1 max_val h1m with ⟨hl, hr⟩
      exact ⟨le_trans hm0 (le_trans zero_le_one hl), hr⟩
  · have hfold := sorting_generator.foldl_swapAt_length_mem swaps
      (List.range (min 5 (n / 10)))
      (List.insertionSort (· ≤ ·) ((List.range n).map (fun k => rand k min_val max_val)))
    exact ⟨by rw [hfold.1, hsortlen], fun x hx => hsortmem x (hfold.2 x hx)⟩
  · exact ⟨by simp, hdrawmem⟩

def wRand : Nat → Int → Int → Int := fun _ a _ => a

def wSwaps : Nat → Nat × Nat := fun _ => (0, 0)

theorem pattern_synthesizer_inrange_witness :
    ((-2 : Int) ≤ 5) ∧
    ((sorting_generator.generateArray wRand wSwaps 4 (-2) 5 "alternating").length = 4 ∧
      ∀ x ∈ sorting_generator.generateArray wRand wSwaps 4 (-2) 5 "alternating",
        (-2 : Int) ≤ x ∧ x ≤ 5) :=
  ⟨by decide,
    pattern_synthesizer_inrange wRand wSwaps 4 (-2) 5 "alternating"
      (fun _ a b h => ⟨le_refl a, h⟩) (by decide) (fun _ => ⟨by decide, by decide⟩)⟩

namespace graph_generator

/-- Helper for the nested list comprehensions in graph_generator.py: for each
i of the outer list, yield all pairs of f i, in order. -/
def flatPairs (f : Nat → List (Nat × Nat)) : List Nat → List (Nat × Nat)
  | [] => []
  | i :: rest => f i ++ flatPairs f rest

lemma length_flatPairs (f : Nat → List (Nat × Nat)) :
    ∀ l : List Nat, (flatPairs f l).length = (l.map (fun i => (f i).length)).sum
  | [] => rfl
  | i :: rest => by
    simp [flatPairs, List.length_append, length_flatPairs f rest]

lemma length_flatPairs_const (f : Nat → List (Nat × Nat)) (k : Nat) :
    ∀ l : List Nat, (∀ i ∈ l, (f i).length = k) → (flatPairs f l).length = l.length * k
  | [], _ => by simp [flatPairs]
  | i :: rest, h => by
    rw [flatPairs, List.length_append, h i (List.mem_cons_self i rest),
      length_flatPairs_const f k rest (fun j hj => h j (List.mem_cons_of_mem i hj)),
      List.length_cons, Nat.succ_mul]
    exact Nat.add_comm k (rest.length * k)

/-- The population of the undirected comprehension at graph_generator.py
line 123 (also the complete-graph edge list at line 96):
(i, j) for i in range(1, n+1) for j in range(i+1, n+1). -/
def possible_edges_undirected (n : Nat) : List (Nat × Nat) :=
  flatPairs (fun i => (List.range' (i + 1) (n - i)).map (fun j => (i, j))) (List.range' 1 n)

/-- The population of the directed comprehension at graph_generator.py
line 118: (i, j) for i in range(1, n+1) for j in range(1, n+1) if i != j. -/
def possible_edges_directed (n : Nat) : List (Nat × Nat) :=
  flatPairs (fun i => ((List.range' 1 n).filter (fun j => j != i)).map (fun j => (i, j)))
    (List.range' 1 n)

/-- First part of the bipartition, graph_generator.py line 102. -/
def part1 (n : Nat) : List Nat := List.range' 1 (n / 2)

/-- Second part of the bipartition, graph_generator.py line 103. -/
def part2 (n : Nat) : List Nat := List.range' (n / 2 + 1) (n - n / 2)

/-- The population of cross edges at graph_generator.py line 107. -/
def possible_edges_bipartite (n : Nat) : List (Nat × Nat) :=
  flatPairs (fun u => (part2 n).map (fun v => (u, v))) (part1 n)

lemma map_range'_sub : ∀ n a : Nat,
    (List.range' a n).map (fun i => a + n - 1 - i) = (List.range n).reverse
  | 0, _ => rfl
  | n + 1, a => by
    have hf : (fun i => a + (n + 1) - 1 - i) = (fun i => (a + 1) + n - 1 - i) :=
      funext fun i => by omega
    rw [List.range'_succ, List.map_cons, hf, map_range'_sub n (a + 1), List.range_succ,
      List.reverse_append]
    have hh : (a + 1) + n - 1 - a = n := by omega
    simp [hh]

lemma sum_range_mul_two : ∀ n : Nat, (List.range n).sum * 2 = n * (n - 1)
  | 0 => rfl
  | n + 1 => by
    rw [List.range_succ, List.sum_append]
    simp only [List.sum_cons, List.sum_nil, Nat.add_zero, Nat.add_sub_cancel]
    calc ((List.range n).sum + n) * 2
        = (List.range n).sum * 2 + n * 2 := by ring
      _ = n * (n - 1) + n * 2 := by rw [sum_range_mul_two n]
      _ = (n + 1) * n := by cases n with
          | zero => rfl
          | succ m => simp only [Nat.succ_sub_one]; ring

lemma length_possible_undirected (n : Nat) :
    (possible_edges_undirected n).length = n * (n - 1) / 2 := by
  have h1 : (possible_edges_undirected n).length
      = ((List.range' 1 n).map (fun i => n - i)).sum := by
    rw [possible_edges_undirected, length_flatPairs]
    have hfun : (fun i => ((List.range' (i + 1) (n - i)).map (fun j => (i, j))).length)
        = fun i => n - i := by
      funext i
      rw [List.length_map, List.length_range']
    rw [hfun]
  have h2 : (List.range' 1 n).map (fun i => n - i) = (List.range n).reverse := by
    have h := map_range'_sub n 1
    have hf : (fun i => 1 + n - 1 - i) = (fun i => n - i) := funext fun i => by omega
    rwa [hf] at h
  have h3 := sum_range_mul_two n
  rw [h1, h2, List.sum_reverse]
  omega

lemma length_filter_ne (i : Nat) : ∀ l : List Nat, l.Nodup → i ∈ l →
    (l.filter (fun j => j != i)).length = l.length - 1
  | [], _, hi => absurd hi (List.not_mem_nil i)
  | a :: rest, hn, hi => by
    rcases List.nodup_cons.mp hn with ⟨ha, hrest⟩
    by_cases hai : a = i
    · subst hai
      have hself : rest.filter (fun j => j != a) = rest := by
        refine List.filter_eq_self.mpr fun b hb => ?_
        exact bne_iff_ne.mpr fun hba => ha (hba ▸ hb)
      simp [List.filter_cons, hself]
    · have hir : i ∈ rest := by
        rcases List.mem_cons.mp hi with h | h
        · exact absurd h.symm hai
        · exact h
      have hlen := length_filter_ne i rest hrest hir
      have hrpos : 0 < rest.length := List.length_pos.mpr (List.ne_nil_of_mem hir)
      have hne : (a != i) = true := bne_iff_ne.mpr hai
      simp only [List.filter_cons, hne, if_true, List.length_cons]
      omega

lemma length_possible_directed (n : Nat) :
    (possible_edges_directed n).length = n * (n - 1) := by
  rw [possible_edges_directed,
    length_flatPairs_const _ (n - 1) _ (fun i hi => by
      rw [List.length_map, length_filter_ne i _ (List.nodup_range' 1 n) hi,
        List.length_range']),
    List.length_range']

lemma length_possible_bipartite (n : Nat) :
    (possible_edges_bipartite n).length = (n / 2) * (n - n / 2) := by
  rw [possible_edges_bipartite,
    length_flatPairs_const _ (part2 n).length _ (fun i _ => List.length_map _ _),
    part1, List.length_range', part2, List.length_range']

/-- Model of the Python expression m or (n * 3) at graph_generator.py
line 106: both None and 0 are falsy, so the default applies to both. -/
def pyOrNat (m : Option Nat) (dflt : Nat) : Nat :=
  match m with
  | none => dflt
  | some 0 => dflt
  | some (k + 1) => k + 1

end graph_generator

namespace graph_generator

/-- Helper for random.choice on a non-empty list: an arbitrary oracle index
reduced modulo the list length always selects a member. -/
lemma getD_mem_of_mod {α : Type} {l : List α} {i : Nat} (h : i < l.length) (d : α) :
    l.getD i d ∈ l := by
  rw [List.getD_eq_getElem?_getD, List.getElem?_eq_getElem h, Option.getD_some]
  exact List.getElem_mem h

/-- Model of the while loop of the tree branch (graph_generator.py lines
86-91): while remaining is non-empty, pick a random connected node u and a
random remaining node v, append the edge (u, v), move v to connected.  The
two random.choice calls of step k are modelled by the oracle pick k, reduced
modulo the sizes of the two lists.  The fuel argument equals the length of
the remaining list, which decreases by one per iteration exactly as the
Python loop does. -/
def treeLoop (pick : Nat → Nat × Nat) :
    Nat → Nat → List Nat → List Nat → List (Nat × Nat) → List (Nat × Nat)
  | 0, _, _, _, acc => acc.reverse
  | fuel + 1, step, c, r, acc =>
    if r.isEmpty then acc.reverse
    else
      let u := c.getD ((pick step).1 % c.length) 1
      let v := r.getD ((pick step).2 % r.length) 1
      treeLoop pick fuel (step + 1) (c ++ [v]) (r.erase v) ((u, v) :: acc)

/-- Model of the tree branch of Generator.generate_case (graph_generator.py
lines 78-92): connected starts as the single node 1 and remaining as
2..n. -/
def treeEdges (pick : Nat → Nat × Nat) (n : Nat) : List (Nat × Nat) :=
  treeLoop pick (n - 1) 0 [1] (List.range' 2 (n - 1)) []

/-- Result of the edge-construction part of Generator.generate_case: the
edge count written on the first line of the input file, and the edge
list. -/
structure EdgeChoice where
  mWritten : Nat
  edges : List (Nat × Nat)
deriving DecidableEq

/-- Model of the graph construction in Generator.generate_case
(graph_generator.py lines 70-125).  random.sample(population, m) is
modelled by the oracle sample; random.choice in the tree branch by the
oracle pick.  An unspecified edge count is m = none. -/
def generate_case_edges (sample : List (Nat × Nat) → Nat → List (Nat × Nat))
    (pick : Nat → Nat × Nat) (n : Nat) (m : Option Nat) (graph_type : String) : EdgeChoice :=
  if graph_type == "line" then
    ⟨n - 1, (List.range' 1 (n - 1)).map (fun i => (i, i + 1))⟩
  else if graph_type == "tree" then
    ⟨n - 1, treeEdges pick n⟩
  else if graph_type == "complete" then
    ⟨n * (n - 1) / 2, possible_edges_undirected n⟩
  else if graph_type == "bipartite" then
    let mv := min (pyOrNat m (n * 3)) ((part1 n).length * (part2 n).length)
    ⟨mv, sample (possible_edges_bipartite n) mv⟩
  else
    let m0 := match m with
      | none => min (n * 2) (n * (n - 1) / 2)
      | some k => k
    if graph_type == "directed" then
      let p := possible_edges_directed n
      ⟨min m0 p.length, sample p (min m0 p.length)⟩
    else
      let p := possible_edges_undirected n
      ⟨min m0 p.length, sample p (min m0 p.length)⟩

/-- The maximum number of distinct edges possible for a graph kind and node
count: all unordered pairs for undirected graphs, all ordered pairs of
distinct nodes for directed graphs, and all cross pairs for bipartite
graphs. -/
def max_possible_edges (graph_type : String) (n : Nat) : Nat :=
  if graph_type == "directed" then n * (n - 1)
  else if graph_type == "bipartite" then (n / 2) * (n - n / 2)
  else n * (n - 1) / 2

/-- Observable result of the graph Generator.generate_case: the written edge
header and list, the content of the answer file and whether an exception
escaped. -/
structure GraphCaseResult where
  mWritten : Nat
  edges : List (Nat × Nat)
  ansFile : Option String
  raised : Bool
deriving DecidableEq

/-- Model of Generator.generate_case of the graph strategy
(graph_generator.py lines 48-152): build the edge list, write the input
file, call generate_output_from_solution and stop.  Unlike the sorting and
binary-search strategies there is no fallback stage: whatever the
reference-runner step leaves in the answer file is final. -/
def generate_case (sample : List (Nat × Nat) → Nat → List (Nat × Nat))
    (pick : Nat → Nat × Nat) (n : Nat) (m : Option Nat) (graph_type : String)
    (outcome : test_case_generator.RunOutcome) : GraphCaseResult :=
  let ec := generate_case_edges sample pick n m graph_type
  let res := test_case_generator.generate_output_from_solution outcome
  ⟨ec.mWritten, ec.edges, res.ansFile, res.raised⟩

end graph_generator

lemma pyOrNat_of_pos {k : Nat} (hk : 0 < k) (dflt : Nat) :
    graph_generator.pyOrNat (some k) dflt = k := by
  cases k with
  | zero => exact absurd hk (lt_irrefl 0)
  | succ j => rfl

/-- C6: for the undirected, directed and bipartite graph types, a requested
edge count exceeding the number of distinct edges possible for that kind and
node count is silently clamped: the written header and the sampled edge list
both have size min of the request and that maximum, and the sample request
never exceeds its population. -/
theorem graph_edge_clamp (sample : List (Nat × Nat) → Nat → List (Nat × Nat))
    (pick : Nat → Nat × Nat) (gt : String) (n k : Nat)
    (Hsample : ∀ (l : List (Nat × Nat)) (j : Nat), j ≤ l.length → (sample l j).length = j)
    (hgt : gt = "undirected" ∨ gt = "directed" ∨ gt = "bipartite")
    (hk : graph_generator.max_possible_edges gt n < k) :
    (graph_generator.generate_case_edges sample pick n (some k) gt).mWritten =
      graph_generator.max_possible_edges gt n ∧
    (graph_generator.generate_case_edges sample pick n (some k) gt).mWritten =
      min k (graph_generator.max_possible_edges gt n) ∧
    ((graph_generator.generate_case_edges sample pick n (some k) gt).edges).length =
      graph_generator.max_possible_edges gt n := by
  rcases hgt with rfl | rfl | rfl
  · rw [graph_generator.max_possible_edges] at hk ⊢
    simp only [show (("undirected" : String) == "directed") = false from rfl,
      show (("undirected" : String) == "bipartite") = false from rfl,
      Bool.false_eq_true, if_false] at hk ⊢
    simp only [graph_generator.generate_case_edges,
      show (("undirected" : String) == "line") = false from rfl,
      show (("undirected" : String) == "tree") = false from rfl,
      show (("undirected" : String) == "complete") = false from rfl,
      show (("undirected" : String) == "bipartite") = false from rfl,
      show (("undirected" : String) == "directed") = false from rfl,
      Bool.false_eq_true, if_false]
    rw [graph_generator.length_possible_undirected]
    refine ⟨by omega, by omega, ?_⟩
    rw [Hsample _ _ (by rw [graph_generator.length_possible_undirected]; omega)]
    omega
  · rw [graph_generator.max_possible_edges] at hk ⊢
    simp only [show (("directed" : String) == "directed") = true from rfl, if_true] at hk ⊢
    simp only [graph_generator.generate_case_edges,
      show (("directed" : String) == "line") = false from rfl,
      show (("directed" : String) == "tree") = false from rfl,
      show (("directed" : String) == "complete") = false from rfl,
      show (("directed" : String) == "bipartite") = false from rfl,
      show (("directed" : String) == "directed") = true from rfl,
      Bool.false_eq_true, if_false, if_true]
    rw [graph_generator.length_possible_directed]
    refine ⟨by omega, by omega, ?_⟩
    rw [Hsample _ _ (by rw [graph_generator.length_possible_directed]; omega)]
    omega
  · rw [graph_generator.max_possible_edges] at hk ⊢
    simp only [show (("bipartite" : String) == "directed") = false from rfl,
      show (("bipartite" : String) == "bipartite") = true from rfl,
      Bool.false_eq_true, if_false, if_true] at hk ⊢
    simp only [graph_generator.generate_case_edges,
      show (("bipartite" : String) == "line") = false from rfl,
      show (("bipartite" : String) == "tree") = false from rfl,
      show (("bipartite" : String) == "complete") = false from rfl,
      show (("bipartite" : String) == "bipartite") = true from rfl,
      Bool.false_eq_true, if_false, if_true]
    rw [pyOrNat_of_pos (by omega)]
    rw [graph_generator.part1, graph_generator.part2, List.length_range', List.length_range']
    refine ⟨by omega, by omega, ?_⟩
    rw [Hsample _ _ (by rw [graph_generator.length_possible_bipartite]; omega)]
    omega

def wSample : List (Nat × Nat) → Nat → List (Nat × Nat) := fun l j => l.take j

def wPick : Nat → Nat × Nat := fun _ => (0, 0)

lemma wSample_spec : ∀ (l : List (Nat × Nat)) (j : Nat), j ≤ l.length →
    (wSample l j).length = j := by
  intro l j h
  rw [wSample, List.length_take]
  omega

theorem graph_edge_clamp_witness :
    graph_generator.max_possible_edges "undirected" 3 < 10 ∧
    ((graph_generator.generate_case_edges wSample wPick 3 (some 10) "undirected").mWritten =
      graph_generator.max_possible_edges "undirected" 3 ∧
    (graph_generator.generate_case_edges wSample wPick 3 (some 10) "undirected").mWritten =
      min 10 (graph_generator.max_possible_edges "undirected" 3) ∧
    ((graph_generator.generate_case_edges wSample wPick 3 (some 10) "undirected").edges).length =
      graph_generator.max_possible_edges "undirected" 3) :=
  ⟨by decide,
    graph_edge_clamp wSample wPick "undirected" 3 10 wSample_spec (Or.inl rfl) (by decide)⟩

/-- C10: for the bipartite graph type an explicit edge count of 0 behaves
exactly like an unspecified edge count, because the default is applied
through Python truthiness of m: the generator produces
min (3 * n) ((n / 2) * (n - n / 2)) edges, not zero edges. -/
theorem bipartite_zero_requested_edges (sample : List (Nat × Nat) → Nat → List (Nat × Nat))
    (pick : Nat → Nat × Nat) (n : Nat)
    (Hsample : ∀ (l : List (Nat × Nat)) (j : Nat), j ≤ l.length → (sample l j).length = j) :
    graph_generator.generate_case_edges sample pick n (some 0) "bipartite" =
      graph_generator.generate_case_edges sample pick n none "bipartite" ∧
    (graph_generator.generate_case_edges sample pick n (some 0) "bipartite").mWritten =
      min (3 * n) ((n / 2) * (n - n / 2)) ∧
    ((graph_generator.generate_case_edges sample pick n (some 0) "bipartite").edges).length =
      min (3 * n) ((n / 2) * (n - n / 2)) ∧
    n - n / 2 = (n + 1) / 2 := by
  have hunfold : ∀ mm : Option Nat,
      graph_generator.generate_case_edges sample pick n mm "bipartite" =
        ⟨min (graph_generator.pyOrNat mm (n * 3)) ((n / 2) * (n - n / 2)),
          sample (graph_generator.possible_edges_bipartite n)
            (min (graph_generator.pyOrNat mm (n * 3)) ((n / 2) * (n - n / 2)))⟩ := by
    intro mm
    simp only [graph_generator.generate_case_edges,
      show (("bipartite" : String) == "line") = false from rfl,
      show (("bipartite" : String) == "tree") = false from rfl,
      show (("bipartite" : String) == "complete") = false from rfl,
      show (("bipartite" : String) == "bipartite") = true from rfl,
      Bool.false_eq_true, if_false, if_true,
      graph_generator.part1, graph_generator.part2, List.length_range']
  have hzero : graph_generator.pyOrNat (some 0) (n * 3) = n * 3 := rfl
  have hnone : graph_generator.pyOrNat none (n * 3) = n * 3 := rfl
  refine ⟨?_, ?_, ?_, by omega⟩
  · rw [hunfold (some 0), hunfold none, hzero, hnone]
  · rw [hunfold (some 0), hzero, Nat.mul_comm 3 n]
  · rw [hunfold (some 0), hzero]
    have hle : min (n * 3) ((n / 2) * (n - n / 2)) ≤
        (graph_generator.possible_edges_bipartite n).length := by
      rw [graph_generator.length_possible_bipartite]
      omega
    rw [Hsample _ _ hle, Nat.mul_comm 3 n]

theorem bipartite_zero_requested_edges_witness :
    graph_generator.generate_case_edges wSample wPick 5 (some 0) "bipartite" =
      graph_generator.generate_case_edges wSample wPick 5 none "bipartite" ∧
    (graph_generator.generate_case_edges wSample wPick 5 (some 0) "bipartite").mWritten =
      min (3 * 5) ((5 / 2) * (5 - 5 / 2)) ∧
    ((graph_generator.generate_case_edges wSample wPick 5 (some 0) "bipartite").edges).length =
      min (3 * 5) ((5 / 2) * (5 - 5 / 2)) ∧
    5 - 5 / 2 = (5 + 1) / 2 :=
  bipartite_zero_requested_edges wSample wPick 5 wSample_spec

/-- C9, counterexample: with no executable available, the graph strategy
generate_case does not return: the TypeError raised by subprocess.run
escapes (raised = true), refuting the claim that it returns in that case. -/
theorem graph_no_fallback_counterexample :
    ¬ ((graph_generator.generate_case wSample wPick 3 none "undirected"
        test_case_generator.RunOutcome.noExecutable).raised = false) := by
  decide

/-- C9, amended: the graph strategy has no fallback evaluator: the answer
file always holds exactly what the reference-runner step left there.  When
the reference program times out or exits non-zero, generate_case returns
normally with an empty answer file; when no executable is available the
uncaught TypeError escapes, likewise leaving the answer file empty. -/
theorem graph_no_fallback (sample : List (Nat × Nat) → Nat → List (Nat × Nat))
    (pick : Nat → Nat × Nat) (n : Nat) (m : Option Nat) (gt : String)
    (d code : Nat) (out : String) :
    ((graph_generator.generate_case sample pick n m gt (.completed d code out)).raised
      = false) ∧
    (test_case_generator.timeoutSeconds < d ∨ code ≠ 0 →
      (graph_generator.generate_case sample pick n m gt (.completed d code out)).ansFile
        = some "") ∧
    (∀ o, (graph_generator.generate_case sample pick n m gt o).ansFile =
      (test_case_generator.generate_output_from_solution o).ansFile) ∧
    ((graph_generator.generate_case sample pick n m gt .noExecutable).raised = true ∧
      (graph_generator.generate_case sample pick n m gt .noExecutable).ansFile = some "") := by
  refine ⟨?_, ?_, fun o => rfl, rfl, rfl⟩
  · simp only [graph_generator.generate_case, test_case_generator.generate_output_from_solution,
      test_case_generator.subprocessRun]
    by_cases h1 : test_case_generator.timeoutSeconds < d
    · simp [h1]
    · by_cases h2 : code ≠ 0 <;> simp [h1, h2]
  · intro hfail
    simp only [graph_generator.generate_case, test_case_generator.generate_output_from_solution,
      test_case_generator.subprocessRun]
    by_cases h1 : test_case_generator.timeoutSeconds < d
    · simp [h1]
    · rcases hfail with h | h
      · exact absurd h h1
      · simp [h1, h]

theorem graph_no_fallback_witness :
    (test_case_generator.timeoutSeconds < 11 ∨ (0 : Nat) ≠ 0) ∧
    (graph_generator.generate_case wSample wPick 3 none "undirected"
      (.completed 11 0 "x")).ansFile = some "" :=
  ⟨Or.inl (by decide),
    (graph_no_fallback wSample wPick 3 none "undirected" 11 0 "x").2.1 (Or.inl (by decide))⟩

namespace graph_generator

/-- Undirected adjacency induced by an edge list. -/
def Adj (E : List (Nat × Nat)) (a b : Nat) : Prop := (a, b) ∈ E ∨ (b, a) ∈ E

/-- Reachability along the undirected edges of an edge list. -/
def Reach (E : List (Nat × Nat)) : Nat → Nat → Prop := Relation.ReflTransGen (Adj E)

/-- x occurs as an endpoint of some edge of E. -/
def InSupp (E : List (Nat × Nat)) (x : Nat) : Prop := ∃ e ∈ E, x = e.1 ∨ x = e.2

lemma adj_symm {E : List (Nat × Nat)} {a b : Nat} (h : Adj E a b) : Adj E b a := h.symm

lemma reach_symm {E : List (Nat × Nat)} {a b : Nat} (h : Reach E a b) : Reach E b a :=
  Relation.ReflTransGen.symmetric (fun _ _ hxy => adj_symm hxy) h

lemma reach_mono {E F : List (Nat × Nat)} (hsub : ∀ p : Nat × Nat, p ∈ E → p ∈ F)
    {a b : Nat} (h : Reach E a b) : Reach F a b :=
  Relation.ReflTransGen.mono (fun _ _ hxy => hxy.imp (hsub _) (hsub _)) h

lemma reach_ext {E F : List (Nat × Nat)} (hiff : ∀ p : Nat × Nat, p ∈ E ↔ p ∈ F)
    {a b : Nat} : Reach E a b ↔ Reach F a b :=
  ⟨reach_mono fun p hp => (hiff p).mp hp, reach_mono fun p hp => (hiff p).mpr hp⟩

lemma reach_endpoint {E : List (Nat × Nat)} {a b : Nat} (h : Reach E a b) :
    b = a ∨ InSupp E b := by
  induction h with
  | refl => exact Or.inl rfl
  | tail hab hbc ih =>
    rcases hbc with hm | hm
    · exact Or.inr ⟨_, hm, Or.inr rfl⟩
    · exact Or.inr ⟨_, hm, Or.inl rfl⟩

lemma not_insupp_of_endpoints {E : List (Nat × Nat)} {c : List Nat} {v : Nat}
    (hend : ∀ e ∈ E, e.1 ∈ c ∧ e.2 ∈ c) (hv : v ∉ c) : ¬ InSupp E v := by
  rintro ⟨e, he, h12⟩
  rcases h12 with h | h
  · exact hv (h ▸ (hend e he).1)
  · exact hv (h ▸ (hend e he).2)

/-- Removing a pendant edge: if vnew touches no edge of R, then any walk in
(u, vnew) :: R projects to a walk in R after collapsing vnew onto u. -/
lemma pendant_elim {u vnew : Nat} {R : List (Nat × Nat)} (hsupp : ¬ InSupp R vnew)
    {a b : Nat} (h : Reach ((u, vnew) :: R) a b) :
    Reach R (if a = vnew then u else a) (if b = vnew then u else b) := by
  induction h with
  | refl => exact Relation.ReflTransGen.refl
  | @tail m c hab hbc ih =>
    rcases hbc with hm | hm
    · rcases List.mem_cons.mp hm with heq | hR
      · have h1 : m = u := congrArg Prod.fst heq
        have h2 : c = vnew := congrArg Prod.snd heq
        subst h1; subst h2
        rw [ite_self] at ih
        rw [if_pos rfl]
        exact ih
      · have hmv : m ≠ vnew := fun hx => hsupp ⟨(m, c), hR, Or.inl hx.symm⟩
        have hcv : c ≠ vnew := fun hx => hsupp ⟨(m, c), hR, Or.inr hx.symm⟩
        rw [if_neg hmv] at ih
        rw [if_neg hcv]
        exact ih.tail (Or.inl hR)
    · rcases List.mem_cons.mp hm with heq | hR
      · have h1 : c = u := congrArg Prod.fst heq
        have h2 : m = vnew := congrArg Prod.snd heq
        subst h1; subst h2
        rw [if_pos rfl] at ih
        rw [ite_self]
        exact ih
      · have hmv : m ≠ vnew := fun hx => hsupp ⟨(c, m), hR, Or.inr hx.symm⟩
        have hcv : c ≠ vnew := fun hx => hsupp ⟨(c, m), hR, Or.inl hx.symm⟩
        rw [if_neg hmv] at ih
        rw [if_neg hcv]
        exact ih.tail (Or.inr hR)

end graph_generator

namespace graph_generator

/-- Invariant proof for the tree-construction loop: starting from a
non-empty connected list c, a disjoint remaining list r and an accumulated
forest acc whose edges lie inside c, connect everything pairwise and are all
bridges, the loop returns an edge list with one new edge per remaining
node, no duplicate edges, endpoints inside c ++ r, all of c ++ r pairwise
reachable, and every edge a bridge. -/
lemma treeLoop_spec (pick : Nat → Nat × Nat) :
    ∀ (fuel step : Nat) (c r : List Nat) (acc : List (Nat × Nat)),
      fuel = r.length →
      c ≠ [] →
      (c ++ r).Nodup →
      (∀ e ∈ acc, e.1 ∈ c ∧ e.2 ∈ c ∧ e.1 ≠ e.2) →
      (∀ x ∈ c, ∀ y ∈ c, Reach acc x y) →
      acc.Nodup →
      (∀ e ∈ acc, ¬ Reach (acc.erase e) e.1 e.2) →
      (treeLoop pick fuel step c r acc).length = acc.length + r.length ∧
      (treeLoop pick fuel step c r acc).Nodup ∧
      (∀ e ∈ treeLoop pick fuel step c r acc,
        (e.1 ∈ c ∨ e.1 ∈ r) ∧ (e.2 ∈ c ∨ e.2 ∈ r) ∧ e.1 ≠ e.2) ∧
      (∀ x, x ∈ c ∨ x ∈ r → ∀ y, y ∈ c ∨ y ∈ r →
        Reach (treeLoop pick fuel step c r acc) x y) ∧
      (∀ e ∈ treeLoop pick fuel step c r acc,
        ¬ Reach ((treeLoop pick fuel step c r acc).erase e) e.1 e.2)
  | 0, step, c, r, acc => by
    intro hfuel hc hnd hend hreach hnda hbr
    have hr : r = [] := List.length_eq_zero.mp hfuel.symm
    subst hr
    simp only [treeLoop]
    have hrev : ∀ p : Nat × Nat, p ∈ acc ↔ p ∈ acc.reverse := fun p => List.mem_reverse.symm
    have hrevnd : acc.reverse.Nodup := List.nodup_reverse.mpr hnda
    refine ⟨by simp, hrevnd, ?_, ?_, ?_⟩
    · intro e he
      rcases hend e (List.mem_reverse.mp he) with ⟨h1, h2, h3⟩
      exact ⟨Or.inl h1, Or.inl h2, h3⟩
    · intro x hx y hy
      have hx' : x ∈ c := by
        rcases hx with h | h
        · exact h
        · exact absurd h (List.not_mem_nil x)
      have hy' : y ∈ c := by
        rcases hy with h | h
        · exact h
        · exact absurd h (List.not_mem_nil y)
      exact (reach_ext hrev).mp (hreach x hx' y hy')
    · intro e he
      have he' : e ∈ acc := List.mem_reverse.mp he
      have hiff : ∀ p : Nat × Nat, p ∈ acc.reverse.erase e ↔ p ∈ acc.erase e := by
        intro p
        rw [List.Nodup.mem_erase_iff hrevnd, List.Nodup.mem_erase_iff hnda, List.mem_reverse]
      intro hcontra
      exact hbr e he' ((reach_ext hiff).mp hcontra)
  | fuel + 1, step, c, r, acc => by
    intro hfuel hc hnd hend hreach hnda hbr
    have hrne : r ≠ [] := by
      intro h
      subst h
      simp at hfuel
    have hre : r.isEmpty = false := List.isEmpty_eq_false.mpr hrne
    have hcpos : 0 < c.length := List.length_pos.mpr hc
    have hrpos : 0 < r.length := List.length_pos.mpr hrne
    simp only [treeLoop, hre, Bool.false_eq_true, if_false]
    set u := c.getD ((pick step).1 % c.length) 1 with hu_def
    set v := r.getD ((pick step).2 % r.length) 1 with hv_def
    have hu : u ∈ c := getD_mem_of_mod (Nat.mod_lt _ hcpos) 1
    have hv : v ∈ r := getD_mem_of_mod (Nat.mod_lt _ hrpos) 1
    have hdisj : c.Disjoint r := List.disjoint_of_nodup_append hnd
    have hvnc : v ∉ c := fun hvc => hdisj hvc hv
    have huv : u ≠ v := fun h => hvnc (h ▸ hu)
    have hnotsupp : ¬ InSupp acc v :=
      not_insupp_of_endpoints (fun e he => ⟨(hend e he).1, (hend e he).2.1⟩) hvnc
    have hfuel' : fuel = (r.erase v).length := by
      rw [List.length_erase_of_mem hv]
      omega
    have hc' : c ++ [v] ≠ [] := by simp
    have hperm : (c ++ r).Perm ((c ++ [v]) ++ r.erase v) := by
      rw [List.append_assoc]
      exact List.Perm.append_left c (List.perm_cons_erase hv)
    have hnd' : ((c ++ [v]) ++ r.erase v).Nodup := hperm.nodup_iff.mp hnd
    have hend' : ∀ e ∈ (u, v) :: acc, e.1 ∈ c ++ [v] ∧ e.2 ∈ c ++ [v] ∧ e.1 ≠ e.2 := by
      intro e he
      rcases List.mem_cons.mp he with rfl | he'
      · exact ⟨List.mem_append_left _ hu,
          List.mem_append_right _ (List.mem_singleton.mpr rfl), huv⟩
      · rcases hend e he' with ⟨h1, h2, h3⟩
        exact ⟨List.mem_append_left _ h1, List.mem_append_left _ h2, h3⟩
    have hstep : Adj ((u, v) :: acc) u v := Or.inl (List.mem_cons_self _ _)
    have hmono : ∀ x y : Nat, Reach acc x y → Reach ((u, v) :: acc) x y :=
      fun x y h => reach_mono (fun p hp => List.mem_cons_of_mem _ hp) h
    have hcv : ∀ x ∈ c, Reach ((u, v) :: acc) x v :=
      fun x hx => (hmono x u (hreach x hx u hu)).tail hstep
    have hreach' : ∀ x ∈ c ++ [v], ∀ y ∈ c ++ [v], Reach ((u, v) :: acc) x y := by
      intro x hx y hy
      rcases List.mem_append.mp hx with hx' | hx'
      · rcases List.mem_append.mp hy with hy' | hy'
        · exact hmono x y (hreach x hx' y hy')
        · obtain rfl := List.mem_singleton.mp hy'
          exact hcv x hx'
      · obtain rfl := List.mem_singleton.mp hx'
        rcases List.mem_append.mp hy with hy' | hy'
        · exact reach_symm (hcv y hy')
        · obtain rfl := List.mem_singleton.mp hy'
          exact Relation.ReflTransGen.refl
    have hnew_notmem : (u, v) ∉ acc := fun hmem => hvnc (hend _ hmem).2.1
    have hnda' : ((u, v) :: acc).Nodup := List.nodup_cons.mpr ⟨hnew_notmem, hnda⟩
    have hbr' : ∀ e ∈ (u, v) :: acc, ¬ Reach (((u, v) :: acc).erase e) e.1 e.2 := by
      intro e he
      rcases List.mem_cons.mp he with rfl | he'
      · rw [List.erase_cons_head]
        intro hreach_uv
        rcases reach_endpoint hreach_uv with h | h
        · exact huv h.symm
        · exact hnotsupp h
      · have hne : ¬ ((u, v) == e) := by
          simp only [beq_iff_eq]
          intro h
          exact hnew_notmem (h ▸ he')
        rw [List.erase_cons_tail hne]
        intro hre
        have hsupp_er : ¬ InSupp (acc.erase e) v := by
          rintro ⟨e', he'', hx⟩
          exact hnotsupp ⟨e', List.mem_of_mem_erase he'', hx⟩
        have hpe := pendant_elim hsupp_er hre
        rcases hend e he' with ⟨h1, h2, h3⟩
        have hv1 : e.1 ≠ v := fun h => hvnc (h ▸ h1)
        have hv2 : e.2 ≠ v := fun h => hvnc (h ▸ h2)
        rw [if_neg hv1, if_neg hv2] at hpe
        exact hbr e he' hpe
    have ih := treeLoop_spec pick fuel (step + 1) (c ++ [v]) (r.erase v) ((u, v) :: acc)
      hfuel' hc' hnd' hend' hreach' hnda' hbr'
    have hmemconv : ∀ x : Nat, (x ∈ c ++ [v] ∨ x ∈ r.erase v) ↔ (x ∈ c ∨ x ∈ r) := by
      intro x
      constructor
      · rintro (hx | hx)
        · rcases List.mem_append.mp hx with h | h
          · exact Or.inl h
          · obtain rfl := List.mem_singleton.mp h
            exact Or.inr hv
        · exact Or.inr (List.mem_of_mem_erase hx)
      · rintro (hx | hx)
        · exact Or.inl (List.mem_append_left _ hx)
        · by_cases hxv : x = v
          · exact Or.inl (List.mem_append_right _ (List.mem_singleton.mpr hxv))
          · exact Or.inr ((List.mem_erase_of_ne hxv).mpr hx)
    rcases ih with ⟨ih1, ih2, ih3, ih4, ih5⟩
    refine ⟨?_, ih2, ?_, ?_, ih5⟩
    · rw [ih1, List.length_cons, List.length_erase_of_mem hv]
      omega
    · intro e he
      rcases ih3 e he with ⟨h1, h2, h3⟩
      exact ⟨(hmemconv e.1).mp h1, (hmemconv e.2).mp h2, h3⟩
    · intro x hx y hy
      exact ih4 x ((hmemconv x).mpr hx) y ((hmemconv y).mpr hy)

end graph_generator

/-- C7: for every node count n ≥ 1 and every sequence of random choices,
the tree topology synthesis produces exactly n - 1 distinct edges over the
nodes 1..n, every node is reachable from node 1 along them (connected
spanning), and every edge is a bridge, i.e. removing it disconnects its own
endpoints (the standard characterization of an acyclic connected graph). -/
theorem tree_topology_spanning (pick : Nat → Nat × Nat) (n : Nat) (hn : 1 ≤ n) :
    (graph_generator.treeEdges pick n).length = n - 1 ∧
    (graph_generator.treeEdges pick n).Nodup ∧
    (∀ e ∈ graph_generator.treeEdges pick n,
      e.1 ∈ List.range' 1 n ∧ e.2 ∈ List.range' 1 n ∧ e.1 ≠ e.2) ∧
    (∀ v ∈ List.range' 1 n, graph_generator.Reach (graph_generator.treeEdges pick n) 1 v) ∧
    (∀ e ∈ graph_generator.treeEdges pick n,
      ¬ graph_generator.Reach ((graph_generator.treeEdges pick n).erase e) e.1 e.2) := by
  obtain ⟨m, rfl⟩ : ∃ m, n = m + 1 := ⟨n - 1, by omega⟩
  have hrange : List.range' 1 (m + 1) = 1 :: List.range' 2 m := List.range'_succ 1 m 1
  have hnd : (([1] : List Nat) ++ List.range' 2 m).Nodup := by
    have h : (([1] : List Nat) ++ List.range' 2 m) = List.range' 1 (m + 1) := by
      rw [hrange]
      rfl
    rw [h]
    exact List.nodup_range' 1 (m + 1)
  have hspec := graph_generator.treeLoop_spec pick m 0 [1] (List.range' 2 m) []
    (List.length_range' 2 1 m).symm (by simp) hnd
    (fun e he => absurd he (List.not_mem_nil e))
    (by
      intro x hx y hy
      obtain rfl := List.mem_singleton.mp hx
      obtain rfl := List.mem_singleton.mp hy
      exact Relation.ReflTransGen.refl)
    List.nodup_nil
    (fun e he => absurd he (List.not_mem_nil e))
  have hmemconv : ∀ x : Nat,
      (x ∈ ([1] : List Nat) ∨ x ∈ List.range' 2 m) ↔ x ∈ List.range' 1 (m + 1) := by
    intro x
    rw [hrange]
    simp
  have hE : graph_generator.treeEdges pick (m + 1)
      = graph_generator.treeLoop pick m 0 [1] (List.range' 2 m) [] := rfl
  rcases hspec with ⟨h1, h2, h3, h4, h5⟩
  rw [hE]
  refine ⟨?_, h2, ?_, ?_, h5⟩
  · rw [h1]
    simp
  · intro e he
    rcases h3 e he with ⟨ha, hb, hc⟩
    exact ⟨(hmemconv e.1).mp ha, (hmemconv e.2).mp hb, hc⟩
  · intro v hv
    exact h4 1 (Or.inl (List.mem_singleton.mpr rfl)) v ((hmemconv v).mpr hv)

theorem tree_topology_spanning_witness :
    (graph_generator.treeEdges wPick 3).length = 3 - 1 ∧
    (graph_generator.treeEdges wPick 3).Nodup ∧
    (∀ e ∈ graph_generator.treeEdges wPick 3,
      e.1 ∈ List.range' 1 3 ∧ e.2 ∈ List.range' 1 3 ∧ e.1 ≠ e.2) ∧
    (∀ v ∈ List.range' 1 3, graph_generator.Reach (graph_generator.treeEdges wPick 3) 1 v) ∧
    (∀ e ∈ graph_generator.treeEdges wPick 3,
      ¬ graph_generator.Reach ((graph_generator.treeEdges wPick 3).erase e) e.1 e.2) :=
  tree_topology_spanning wPick 3 (by decide)

namespace sorting_generator

/-- Observable result of one generated test case of the sorting strategy:
scope flag and case number (which determine the file names), the input file
content, the final answer file content and whether an exception escaped. -/
structure CaseRecord where
  is_sample : Bool
  num : Nat
  inputText : String
  ans : Option String
  raised : Bool
deriving DecidableEq

/-- The DOMjudge base file name of a case (sorting_generator.py lines
44-47). -/
def baseName (c : CaseRecord) : String :=
  (if c.is_sample then "sample-" else "secret-") ++ toString c.num

/-- Model of Generator.generate_case of the sorting strategy
(sorting_generator.py lines 38-91): synthesize the array, write the input
file (count line, then the space-separated values), run the reference
program through the orchestrator, then apply the Python fallback exactly
when the answer file is empty.  If the reference-runner step raised, the
fallback line is never reached. -/
def generate_case (rand : Nat → Int → Int → Int) (swaps : Nat → Nat × Nat)
    (refOutcome : test_case_generator.RunOutcome) (case_num : Nat) (n : Nat)
    (min_val max_val : Int) (pat : String) (is_sample : Bool) : CaseRecord :=
  let arr := generateArray rand swaps n min_val max_val pat
  let res := test_case_generator.generate_output_from_solution refOutcome
  { is_sample := is_sample
    num := case_num
    inputText := toString n ++ "\n" ++ joinInts arr ++ "\n"
    ans := if res.raised then res.ansFile else applyFallback (outputText arr) res.ansFile
    raised := res.raised }

/-- Model of Generator.generate_all_cases of the sorting strategy
(sorting_generator.py lines 14-36): the exact sequence of twelve calls with
their literal parameter dictionaries; the pattern parameter defaults to
random when the dictionary omits it.  The oracle families give each call
its own randomness and its own reference-program outcome. -/
def generate_all_cases (rand : Nat → Nat → Int → Int → Int)
    (swaps : Nat → Nat → Nat × Nat) (ref : Nat → test_case_generator.RunOutcome) :
    List CaseRecord :=
  [generate_case (rand 0) (swaps 0) (ref 0) 1 5 1 20 "random" true,
   generate_case (rand 1) (swaps 1) (ref 1) 2 10 1 100 "random" true,
   generate_case (rand 2) (swaps 2) (ref 2) 1 1 (10 ^ 9) (10 ^ 9) "random" false,
   generate_case (rand 3) (swaps 3) (ref 3) 2 5 10 10 "all_same" false,
   generate_case (rand 4) (swaps 4) (ref 4) 3 100 1 (10 ^ 5) "random" false,
   generate_case (rand 5) (swaps 5) (ref 5) 4 1000 1 (10 ^ 6) "random" false,
   generate_case (rand 6) (swaps 6) (ref 6) 5 (10 ^ 5) 1 (10 ^ 9) "random" false,
   generate_case (rand 7) (swaps 7) (ref 7) 6 (2 * 10 ^ 5) 1 (10 ^ 9) "random" false,
   generate_case (rand 8) (swaps 8) (ref 8) 7 (10 ^ 4) 1 (10 ^ 9) "random" false,
   generate_case (rand 9) (swaps 9) (ref 9) 8 (10 ^ 4) 1 (10 ^ 9) "ascending" false,
   generate_case (rand 10) (swaps 10) (ref 10) 9 (10 ^ 4) 1 (10 ^ 9) "descending" false,
   generate_case (rand 11) (swaps 11) (ref 11) 10 (10 ^ 4) (-(10 ^ 9)) (10 ^ 9)
     "alternating" false]

lemma outputText_ne_empty (arr : List Int) : outputText arr ≠ "" := by
  intro h
  have hlen := congrArg String.length h
  rw [outputText, String.length_append] at hlen
  have h1 : ("\n" : String).length = 1 := rfl
  have h2 : ("" : String).length = 0 := rfl
  omega

lemma applyFallback_some_nonempty {fb : String} (hfb : fb ≠ "") (t : String) :
    ∃ s, applyFallback fb (some t) = some s ∧ s ≠ "" := by
  by_cases h : fallbackNeeded (some t) = true
  · exact ⟨fb, by simp [applyFallback, h], hfb⟩
  · refine ⟨t, by simp [applyFallback, h], fun ht => ?_⟩
    exact h ((sorting_fallbackNeeded_iff (some t)).mpr (Or.inr (by rw [ht])))

lemma generate_case_ans_nonempty (rand : Nat → Int → Int → Int) (swaps : Nat → Nat × Nat)
    (o : test_case_generator.RunOutcome) (ho : o ≠ test_case_generator.RunOutcome.noExecutable)
    (case_num : Nat) (n : Nat) (min_val max_val : Int) (pat : String) (is_sample : Bool) :
    ∃ s, (generate_case rand swaps o case_num n min_val max_val pat is_sample).ans = some s ∧
      s ≠ "" := by
  cases o with
  | noExecutable => exact absurd rfl ho
  | completed d code out =>
    have hfb := outputText_ne_empty (generateArray rand swaps n min_val max_val pat)
    by_cases h1 : test_case_generator.timeoutSeconds < d
    · simpa [generate_case, test_case_generator.generate_output_from_solution,
        test_case_generator.subprocessRun, h1] using applyFallback_some_nonempty hfb ""
    · by_cases h2 : code ≠ 0
      · simpa [generate_case, test_case_generator.generate_output_from_solution,
          test_case_generator.subprocessRun, h1, h2] using applyFallback_some_nonempty hfb ""
      · simpa [generate_case, test_case_generator.generate_output_from_solution,
          test_case_generator.subprocessRun, h1, h2] using applyFallback_some_nonempty hfb out

end sorting_generator

/-- C8: a full run of the sorting strategy with an executable available
produces the sample cases numbered 1 and 2 (files sample-1, sample-2) and
the secret cases numbered 1 through 10 (files secret-1 .. secret-10), the
numbering restarting at 1 in each scope, and every answer file is non-empty
after completion, filled by the reference program or by the fallback. -/
theorem sorting_run_layout (rand : Nat → Nat → Int → Int → Int)
    (swaps : Nat → Nat → Nat × Nat) (ref : Nat → test_case_generator.RunOutcome)
    (href : ∀ i, ref i ≠ test_case_generator.RunOutcome.noExecutable) :
    (sorting_generator.generate_all_cases rand swaps ref).map
        (fun c => (c.is_sample, c.num)) =
      [(true, 1), (true, 2), (false, 1), (false, 2), (false, 3), (false, 4), (false, 5),
        (false, 6), (false, 7), (false, 8), (false, 9), (false, 10)] ∧
    ((sorting_generator.generate_all_cases rand swaps ref).filter
        (fun c => c.is_sample)).map sorting_generator.baseName =
      ["sample-1", "sample-2"] ∧
    ((sorting_generator.generate_all_cases rand swaps ref).filter
        (fun c => !c.is_sample)).map sorting_generator.baseName =
      ["secret-1", "secret-2", "secret-3", "secret-4", "secret-5", "secret-6", "secret-7",
        "secret-8", "secret-9", "secret-10"] ∧
    ∀ c ∈ sorting_generator.generate_all_cases rand swaps ref,
      ∃ s, c.ans = some s ∧ s ≠ "" := by
  refine ⟨rfl, ?_, ?_, ?_⟩
  · simp only [sorting_generator.generate_all_cases, sorting_generator.generate_case,
      List.filter_cons, List.filter_nil, List.map_cons, List.map_nil,
      sorting_generator.baseName, Bool.false_eq_true, if_true, if_false, Bool.not_true,
      Bool.not_false]
    rfl
  · simp only [sorting_generator.generate_all_cases, sorting_generator.generate_case,
      List.filter_cons, List.filter_nil, List.map_cons, List.map_nil,
      sorting_generator.baseName, Bool.false_eq_true, if_true, if_false, Bool.not_true,
      Bool.not_false]
    rfl
  intro c hc
  simp only [sorting_generator.generate_all_cases, List.mem_cons, List.not_mem_nil,
    or_false] at hc
  rcases hc with rfl | rfl | rfl | rfl | rfl | rfl | rfl | rfl | rfl | rfl | rfl | rfl <;>
    exact sorting_generator.generate_case_ans_nonempty _ _ _ (href _) _ _ _ _ _ _

def wRandFam : Nat → Nat → Int → Int → Int := fun _ => wRand

def wSwapsFam : Nat → Nat → Nat × Nat := fun _ => wSwaps

def wRef : Nat → test_case_generator.RunOutcome := fun _ => .completed 0 0 ""

theorem sorting_run_layout_witness :
    (sorting_generator.generate_all_cases wRandFam wSwapsFam wRef).map
        (fun c => (c.is_sample, c.num)) =
      [(true, 1), (true, 2), (false, 1), (false, 2), (false, 3), (false, 4), (false, 5),
        (false, 6), (false, 7), (false, 8), (false, 9), (false, 10)] ∧
    ((sorting_generator.generate_all_cases wRandFam wSwapsFam wRef).filter
        (fun c => c.is_sample)).map sorting_generator.baseName =
      ["sample-1", "sample-2"] ∧
    ((sorting_generator.generate_all_cases wRandFam wSwapsFam wRef).filter
        (fun c => !c.is_sample)).map sorting_generator.baseName =
      ["secret-1", "secret-2", "secret-3", "secret-4", "secret-5", "secret-6", "secret-7",
        "secret-8", "secret-9", "secret-10"] ∧
    ∀ c ∈ sorting_generator.generate_all_cases wRandFam wSwapsFam wRef,
      ∃ s, c.ans = some s ∧ s ≠ "" :=
  sorting_run_layout wRandFam wSwapsFam wRef
    (fun _ h => test_case_generator.RunOutcome.noConfusion h)
